import Mathlib

/-!
Verification of the dip-lab pixel-buffer processing engine.

The source of truth is the TypeScript/JavaScript code of the repository
(classes Spatial, Frequency, Projection, BlurDetection and dipImage).
Pixel buffers (Uint8ClampedArray values) are modelled as List of natural
numbers; machine floating point arithmetic is modelled by exact rational
numbers where the code only performs rational operations, and by real
numbers where the code uses sqrt, trigonometric functions or logarithms.
The two IEEE peculiarities the claims touch are modelled explicitly:
division by zero (jsClampDiv) and the round-half-to-even performed when a
number is stored into a Uint8ClampedArray slot (clampByte, clampByteR).
-/

/-- Models the JavaScript expression v || d on a byte read v: the default d
is returned when v is 0; callers encode an out-of-bounds read by passing the
getD default 0 as v, which also yields d, matching undefined || d. -/
def jsOrDefault (v d : ℕ) : ℕ := if v = 0 then d else v

/-- Round to nearest integer with ties to even, the rounding performed when a
JavaScript number is stored into a Uint8ClampedArray slot. -/
def roundHalfEven (q : ℚ) : ℤ :=
  if Int.fract q = 1 / 2 then (if 2 ∣ ⌊q⌋ then ⌊q⌋ else ⌊q⌋ + 1) else round q

/-- Storing a rational value into a Uint8ClampedArray slot: clamp to the byte
range 0..255, then round to nearest with ties to even. -/
def clampByte (q : ℚ) : ℕ := (roundHalfEven (min 255 (max 0 q))).toNat

/-- Round to nearest integer with ties to even, real-number version. -/
noncomputable def roundHalfEvenR (x : ℝ) : ℤ :=
  if Int.fract x = 1 / 2 then (if 2 ∣ ⌊x⌋ then ⌊x⌋ else ⌊x⌋ + 1) else round x

/-- Storing a real value into a Uint8ClampedArray slot: clamp to the byte
range 0..255, then round to nearest with ties to even. -/
noncomputable def clampByteR (x : ℝ) : ℕ := (roundHalfEvenR (min 255 (max 0 x))).toNat

/-- JavaScript Math.round: round half toward positive infinity. -/
noncomputable def jsRound (x : ℝ) : ℤ := ⌊x + 1 / 2⌋

/-- JavaScript Math.round on a rational argument. -/
def jsRoundQ (q : ℚ) : ℤ := ⌊q + 1 / 2⌋

/-- JavaScript Math.atan2 on real arguments (y first), via the complex
argument function, which agrees with atan2 on its whole domain and sends 0
to 0 exactly as Math.atan2(0, 0) does. -/
noncomputable def jsAtan2 (y x : ℝ) : ℝ := Complex.arg ⟨x, y⟩

namespace Spatial

/-- The 5x5 Gaussian blur kernel of the stock registry (Spatial.ts). -/
def gaussianBlurKernel : List (List ℚ) :=
  [[1/273, 4/273, 7/273, 4/273, 1/273],
   [4/273, 16/273, 26/273, 16/273, 4/273],
   [7/273, 26/273, 41/273, 26/273, 7/273],
   [4/273, 16/273, 26/273, 16/273, 4/273],
   [1/273, 4/273, 7/273, 4/273, 1/273]]

/-- The sharpen kernel of the stock registry (Spatial.ts). -/
def sharpenKernel : List (List ℚ) := [[0, -1, 0], [-1, 5, -1], [0, -1, 0]]

/-- The mean removal kernel of the stock registry (Spatial.ts). -/
def meanRemovalKernel : List (List ℚ) :=
  [[-1/9, -1/9, -1/9], [-1/9, 8/9, -1/9], [-1/9, -1/9, -1/9]]

/-- The emboss Laplascian kernel of the stock registry (Spatial.ts). -/
def embossLaplascianKernel : List (List ℚ) := [[-1, 0, -1], [0, 4, 0], [-1, 0, -1]]

/-- The Sobel kernel of the stock registry (Spatial.ts). -/
def sobelKernel : List (List ℚ) := [[-1, -2, -1], [0, 0, 0], [1, 2, 1]]

/-- The horizontal edge kernel of the stock registry (Spatial.ts). -/
def horizontalEdgeKernel : List (List ℚ) := [[-1, 0, 1], [-2, 0, 2], [-1, 0, 1]]

/-- The vertical edge kernel of the stock registry (Spatial.ts). -/
def verticalEdgeKernel : List (List ℚ) := [[-1, -2, -1], [0, 0, 0], [1, 2, 1]]

/-- The identity kernel of the stock registry (Spatial.ts). -/
def identityKernel : List (List ℚ) := [[0, 0, 0], [0, 1, 0], [0, 0, 0]]

/-- The stock kernel registry Spatial.Filters: name to kernel lookup. -/
def Filters (name : String) : Option (List (List ℚ)) :=
  if name = "Gaussian Blur" then some gaussianBlurKernel
  else if name = "Sharpen" then some sharpenKernel
  else if name = "Mean Removal" then some meanRemovalKernel
  else if name = "Emboss Laplascian" then some embossLaplascianKernel
  else if name = "Sobel" then some sobelKernel
  else if name = "Horizontal Edge" then some horizontalEdgeKernel
  else if name = "Vertical Edge" then some verticalEdgeKernel
  else if name = "Identity" then some identityKernel
  else none

/-- The eight kernel names present in the stock registry. -/
def registeredKernelNames : List String :=
  ["Gaussian Blur", "Sharpen", "Mean Removal", "Emboss Laplascian",
   "Sobel", "Horizontal Edge", "Vertical Edge", "Identity"]

/-- The inner convolution sum of Spatial.applyFilter for one output pixel
(x, y) and one colour channel c: sample coordinates are clamped to the image
rectangle, a bounds test guards the accumulation, pixel reads default to 0
and kernel entries outside the kernel arrays count as 0, exactly as in the
source loop over ky and kx. -/
def convSum (img : List ℕ) (w h : ℕ) (kernel : List (List ℚ)) (x y c : ℕ) : ℚ :=
  ∑ ky ∈ Finset.range kernel.length, ∑ kx ∈ Finset.range kernel.length,
    let half : ℕ := kernel.length / 2
    let px : ℤ := max 0 (min ((w : ℤ) - 1) ((x : ℤ) + (kx : ℤ) - (half : ℤ)))
    let py : ℤ := max 0 (min ((h : ℤ) - 1) ((y : ℤ) + (ky : ℤ) - (half : ℤ)))
    if 0 ≤ px ∧ px < (w : ℤ) ∧ 0 ≤ py ∧ py < (h : ℤ) then
      (img.getD ((py.toNat * w + px.toNat) * 4 + c) 0 : ℚ) *
        ((kernel.getD ky []).getD kx 0)
    else 0

/-- The per-channel post-processing of Spatial.applyFilter: the Mean Removal
kernel gets the bias and scale remap value * 2 + 128, every other kernel gets
the plain clamp; the normalizeFactor of the source is the constant 1. -/
def normalizeChannel (name : String) (s : ℚ) : ℚ :=
  if name = "Mean Removal" then min 255 (max 0 (s * 2 + 128))
  else min 255 (max 0 s)

/-- The body of Spatial.applyFilter after the registry lookup succeeded: the
output buffer, byte by byte.  Byte j belongs to pixel i = j / 4 at
coordinates x = i mod w, y = i / w; channels 0..2 receive the clamped
convolution value, channel 3 copies the source alpha through the JavaScript
expression imageData[index + 3] || 255. -/
def applyFilterCore (img : List ℕ) (w h : ℕ) (kernel : List (List ℚ))
    (name : String) : List ℕ :=
  (List.range (w * h * 4)).map fun j =>
    let i := j / 4
    let x := i % w
    let y := i / w
    if j % 4 = 3 then jsOrDefault (img.getD ((y * w + x) * 4 + 3) 0) 255
    else clampByte (normalizeChannel name (convSum img w h kernel x y (j % 4)))

/-- Spatial.applyFilter: look the kernel up in the registry, throw the error
naming the kernel when it is absent, otherwise run the convolution. -/
def applyFilter (img : List ℕ) (w h : ℕ) (name : String) :
    Except String (List ℕ) :=
  match Filters name with
  | none => Except.error ("Filter \"" ++ name ++ "\" not found")
  | some kernel => Except.ok (applyFilterCore img w h kernel name)

end Spatial

/-- The 2x2 scenario buffer named by the spec: red, green, blue and gray
pixels, all fully opaque. -/
def sampleBuffer : List ℕ :=
  [255, 0, 0, 255, 0, 255, 0, 255, 0, 0, 255, 255, 128, 128, 128, 255]

namespace Projection

/-- The row accumulation of Projection.applyHorizontalProjection for row y
and channel c: the source adds a sample only when the three colour reads at
that pixel are defined, and reads each channel with the ?? 0 default. -/
def rowSum (img : List ℕ) (w y c : ℕ) : ℚ :=
  ∑ i ∈ Finset.range w,
    if (y * w + i) * 4 < img.length ∧ (y * w + i) * 4 + 1 < img.length ∧
        (y * w + i) * 4 + 2 < img.length then
      (img.getD ((y * w + i) * 4 + c) 0 : ℚ)
    else 0

/-- Projection.applyHorizontalProjection: every channel byte of a pixel in
row y becomes the clamped mean of that row, the alpha byte is copied with
the ?? 0 default. -/
def applyHorizontalProjection (img : List ℕ) (w h : ℕ) : List ℕ :=
  (List.range (w * h * 4)).map fun j =>
    let i := j / 4
    let x := i % w
    let y := i / w
    if j % 4 = 3 then img.getD ((y * w + x) * 4 + 3) 0
    else clampByte (min 255 (max 0 (rowSum img w y (j % 4) / w)))

/-- The column accumulation of Projection.applyVerticalProjection, which has
no definedness test in the source, only the ?? 0 defaults. -/
def colSum (img : List ℕ) (w h x c : ℕ) : ℚ :=
  ∑ i ∈ Finset.range h, (img.getD ((i * w + x) * 4 + c) 0 : ℚ)

/-- Projection.applyVerticalProjection: every channel byte of a pixel in
column x becomes the clamped mean of that column. -/
def applyVerticalProjection (img : List ℕ) (w h : ℕ) : List ℕ :=
  (List.range (w * h * 4)).map fun j =>
    let i := j / 4
    let x := i % w
    let y := i / w
    if j % 4 = 3 then img.getD ((y * w + x) * 4 + 3) 0
    else clampByte (min 255 (max 0 (colSum img w h x (j % 4) / h)))

/-- The distance of pixel (x, y) from the floored image center, as computed
at the top of the radial projection loop body. -/
noncomputable def radialDistance (w h x y : ℕ) : ℝ :=
  let dx : ℤ := (x : ℤ) - (w / 2 : ℕ)
  let dy : ℤ := (y : ℤ) - (h / 2 : ℕ)
  Real.sqrt ((dx : ℝ) * (dx : ℝ) + (dy : ℝ) * (dy : ℝ))

/-- The radial sampling walk of Projection.applyRadialProjection for pixel
(x, y) and channel c: the loop runs for step index 0 up to the floor of the
distance inclusive, perturbs the angle by 0.1 radians per step, rounds the
polar sample coordinates with Math.round and accumulates only in-bounds
samples. -/
noncomputable def radialSum (img : List ℕ) (w h x y c : ℕ) : ℝ :=
  let dx : ℤ := (x : ℤ) - (w / 2 : ℕ)
  let dy : ℤ := (y : ℤ) - (h / 2 : ℕ)
  ∑ i ∈ Finset.range (⌊radialDistance w h x y⌋.toNat + 1),
    let angle : ℝ := jsAtan2 (dy : ℝ) (dx : ℝ) + (i : ℝ) * (1 / 10)
    let px : ℤ := ((w / 2 : ℕ) : ℤ) + jsRound (Real.cos angle * (i : ℝ))
    let py : ℤ := ((h / 2 : ℕ) : ℤ) + jsRound (Real.sin angle * (i : ℝ))
    if 0 ≤ px ∧ px < (w : ℤ) ∧ 0 ≤ py ∧ py < (h : ℤ) then
      (img.getD ((py.toNat * w + px.toNat) * 4 + c) 0 : ℝ)
    else 0

/-- The normalization step of the radial projection, the expression
Math.min(255, Math.max(0, s / d)) followed by the clamped store, including
the IEEE outcomes the source hits when d is 0: a positive s gives
s / 0 = Infinity, which clamps to 255, while s = 0 gives NaN, which a
Uint8ClampedArray stores as 0 (a negative s would give -Infinity, also
stored as 0). -/
noncomputable def jsClampDiv (s d : ℝ) : ℕ :=
  if d = 0 then (if 0 < s then 255 else 0)
  else clampByteR (min 255 (max 0 (s / d)))

/-- Projection.applyRadialProjection: each pixel receives its radial sample
sums divided by its distance from the center, with no guard for a zero
distance; the alpha byte is copied with the ?? 0 default. -/
noncomputable def applyRadialProjection (img : List ℕ) (w h : ℕ) : List ℕ :=
  (List.range (w * h * 4)).map fun j =>
    let i := j / 4
    let x := i % w
    let y := i / w
    if j % 4 = 3 then img.getD ((y * w + x) * 4 + 3) 0
    else jsClampDiv (radialSum img w h x y (j % 4)) (radialDistance w h x y)

/-- The ring accumulation of Projection.applyAngularProjection: 360 samples
on a radius-5 ring around the floored center, in-bounds samples only. -/
noncomputable def angularSum (img : List ℕ) (w h c : ℕ) : ℝ :=
  ∑ i ∈ Finset.range 360,
    let px : ℤ := ((w / 2 : ℕ) : ℤ) + jsRound (Real.cos ((i : ℝ) * Real.pi / 180) * 5)
    let py : ℤ := ((h / 2 : ℕ) : ℤ) + jsRound (Real.sin ((i : ℝ) * Real.pi / 180) * 5)
    if 0 ≤ px ∧ px < (w : ℤ) ∧ 0 ≤ py ∧ py < (h : ℤ) then
      (img.getD ((py.toNat * w + px.toNat) * 4 + c) 0 : ℝ)
    else 0

/-- Projection.applyAngularProjection: every pixel receives the clamped mean
of the 360 ring samples; the alpha byte is copied with the ?? 0 default. -/
noncomputable def applyAngularProjection (img : List ℕ) (w h : ℕ) : List ℕ :=
  (List.range (w * h * 4)).map fun j =>
    let i := j / 4
    let x := i % w
    let y := i / w
    if j % 4 = 3 then img.getD ((y * w + x) * 4 + 3) 0
    else clampByteR (min 255 (max 0 (angularSum img w h (j % 4) / 360)))

/-- Projection.applyCustomProjection: string dispatch over the projection
type; the default branch allocates a w * h * 4 buffer and copies the input
into it index by index with the ?? 0 default, writes past the new length
being dropped. -/
noncomputable def applyCustomProjection (img : List ℕ) (w h : ℕ)
    (ptype : String) : List ℕ :=
  if ptype = "horizontal" then applyHorizontalProjection img w h
  else if ptype = "vertical" then applyVerticalProjection img w h
  else if ptype = "radial" then applyRadialProjection img w h
  else if ptype = "angular" then applyAngularProjection img w h
  else (List.range (w * h * 4)).map fun i => if i < img.length then img.getD i 0 else 0

end Projection

namespace Frequency

/-- The grayscale conversion at the top of Frequency.applyFFT: the luminance
of pixel p, shifted by -128, with the || 0 defaults on the channel reads. -/
noncomputable def grayData (img : List ℕ) (p : ℕ) : ℝ :=
  0.299 * (img.getD (4 * p) 0 : ℝ) + 0.587 * (img.getD (4 * p + 1) 0 : ℝ)
    + 0.114 * (img.getD (4 * p + 2) 0 : ℝ) - 128

/-- The real part of the row pass of Frequency.applyFFT at row y and
frequency u: a 1D transform that samples every fourth column (x = 4k < w)
and scales the sum down by 4. -/
noncomputable def rowFFTre (img : List ℕ) (w y u : ℕ) : ℝ :=
  (∑ k ∈ Finset.range ((w + 3) / 4),
    grayData img (y * w + 4 * k) *
      Real.cos (-2 * Real.pi * (u : ℝ) * ((4 * k : ℕ) : ℝ) / (w : ℝ))) / 4

/-- The imaginary part of the row pass of Frequency.applyFFT. -/
noncomputable def rowFFTim (img : List ℕ) (w y u : ℕ) : ℝ :=
  (∑ k ∈ Finset.range ((w + 3) / 4),
    grayData img (y * w + 4 * k) *
      Real.sin (-2 * Real.pi * (u : ℝ) * ((4 * k : ℕ) : ℝ) / (w : ℝ))) / 4

/-- The real part of bin i of Frequency.applyFFT: the column pass combines
the row-pass values of every fourth row (y = 4k < h) with the complex
rotation of the source loop, and scales the sum down by 4.  Bin i sits at
x = i mod w, v = i / w, matching the output index (v * w + x) * 2. -/
noncomputable def applyFFTre (img : List ℕ) (w h i : ℕ) : ℝ :=
  let x := i % w
  let v := i / w
  (∑ k ∈ Finset.range ((h + 3) / 4),
    (rowFFTre img w (4 * k) x *
        Real.cos (-2 * Real.pi * (v : ℝ) * ((4 * k : ℕ) : ℝ) / (h : ℝ))
      - rowFFTim img w (4 * k) x *
        Real.sin (-2 * Real.pi * (v : ℝ) * ((4 * k : ℕ) : ℝ) / (h : ℝ)))) / 4

/-- The imaginary part of bin i of Frequency.applyFFT. -/
noncomputable def applyFFTim (img : List ℕ) (w h i : ℕ) : ℝ :=
  let x := i % w
  let v := i / w
  (∑ k ∈ Finset.range ((h + 3) / 4),
    (rowFFTre img w (4 * k) x *
        Real.sin (-2 * Real.pi * (v : ℝ) * ((4 * k : ℕ) : ℝ) / (h : ℝ))
      + rowFFTim img w (4 * k) x *
        Real.cos (-2 * Real.pi * (v : ℝ) * ((4 * k : ℕ) : ℝ) / (h : ℝ)))) / 4

/-- The distance of bin i from the field center as computed inside the three
frequency filters: x = i mod w, y = floor(i / w), center at (w / 2, h / 2)
with real division, distance by Math.sqrt of the squared offsets. -/
noncomputable def freqDist (w h i : ℕ) : ℝ :=
  Real.sqrt ((((i % w : ℕ) : ℝ) - (w : ℝ) / 2) ^ 2
    + (((i / w : ℕ) : ℝ) - (h : ℝ) / 2) ^ 2)

/-- Bin i is written through (retained) by the low-pass filter: the source
condition dist <= cutoff. -/
def lowPassRetains (w h : ℕ) (cutoff : ℝ) (i : ℕ) : Prop := freqDist w h i ≤ cutoff

/-- Bin i is written through (retained) by the high-pass filter: the source
condition dist > cutoff. -/
def highPassRetains (w h : ℕ) (cutoff : ℝ) (i : ℕ) : Prop := cutoff < freqDist w h i

/-- Bin i is written through (retained) by the band-pass filter: the source
condition dist >= lowCutoff && dist <= highCutoff. -/
def bandPassRetains (w h : ℕ) (lo hi : ℝ) (i : ℕ) : Prop :=
  lo ≤ freqDist w h i ∧ freqDist w h i ≤ hi

noncomputable instance (w h : ℕ) (c : ℝ) (i : ℕ) : Decidable (lowPassRetains w h c i) :=
  inferInstanceAs (Decidable (freqDist w h i ≤ c))

noncomputable instance (w h : ℕ) (c : ℝ) (i : ℕ) : Decidable (highPassRetains w h c i) :=
  inferInstanceAs (Decidable (c < freqDist w h i))

noncomputable instance (w h : ℕ) (lo hi : ℝ) (i : ℕ) :
    Decidable (bandPassRetains w h lo hi i) :=
  inferInstanceAs (Decidable (lo ≤ freqDist w h i ∧ freqDist w h i ≤ hi))

/-- Frequency.applyLowPassFilter: run the forward transform, then write each
retained bin as real part into R and B and imaginary part into G through the
clamped store, zero the other bins, and copy alpha through the expression
imageData[i * 4 + 3] || 255.  No inverse transform is involved. -/
noncomputable def applyLowPassFilter (img : List ℕ) (w h : ℕ) (cutoff : ℝ) : List ℕ :=
  (List.range (w * h * 4)).map fun j =>
    let i := j / 4
    if j % 4 = 0 then
      (if lowPassRetains w h cutoff i then clampByteR (applyFFTre img w h i) else 0)
    else if j % 4 = 1 then
      (if lowPassRetains w h cutoff i then clampByteR (applyFFTim img w h i) else 0)
    else if j % 4 = 2 then
      (if lowPassRetains w h cutoff i then clampByteR (applyFFTre img w h i) else 0)
    else jsOrDefault (img.getD (i * 4 + 3) 0) 255

/-- Frequency.applyHighPassFilter: identical to the low-pass filter except
that the retained bins are those with dist > cutoff. -/
noncomputable def applyHighPassFilter (img : List ℕ) (w h : ℕ) (cutoff : ℝ) : List ℕ :=
  (List.range (w * h * 4)).map fun j =>
    let i := j / 4
    if j % 4 = 0 then
      (if highPassRetains w h cutoff i then clampByteR (applyFFTre img w h i) else 0)
    else if j % 4 = 1 then
      (if highPassRetains w h cutoff i then clampByteR (applyFFTim img w h i) else 0)
    else if j % 4 = 2 then
      (if highPassRetains w h cutoff i then clampByteR (applyFFTre img w h i) else 0)
    else jsOrDefault (img.getD (i * 4 + 3) 0) 255

/-- Frequency.applyBandPassFilter: identical to the low-pass filter except
that the retained bins are those with lowCutoff <= dist <= highCutoff. -/
noncomputable def applyBandPassFilter (img : List ℕ) (w h : ℕ) (lo hi : ℝ) : List ℕ :=
  (List.range (w * h * 4)).map fun j =>
    let i := j / 4
    if j % 4 = 0 then
      (if bandPassRetains w h lo hi i then clampByteR (applyFFTre img w h i) else 0)
    else if j % 4 = 1 then
      (if bandPassRetains w h lo hi i then clampByteR (applyFFTim img w h i) else 0)
    else if j % 4 = 2 then
      (if bandPassRetains w h lo hi i then clampByteR (applyFFTre img w h i) else 0)
    else jsOrDefault (img.getD (i * 4 + 3) 0) 255

/-- Frequency.applyFrequencyFilter: string dispatch with the default cutoffs
min(w, h) / 4 for low and high pass and [min(w, h) / 8, min(w, h) / 2] for
band pass; an unrecognized filter type returns the input itself. -/
noncomputable def applyFrequencyFilter (img : List ℕ) (w h : ℕ)
    (ftype : String) : List ℕ :=
  if ftype = "lowpass" then
    applyLowPassFilter img w h (min (w : ℝ) (h : ℝ) / 4)
  else if ftype = "highpass" then
    applyHighPassFilter img w h (min (w : ℝ) (h : ℝ) / 4)
  else if ftype = "bandpass" then
    applyBandPassFilter img w h (min (w : ℝ) (h : ℝ) / 8) (min (w : ℝ) (h : ℝ) / 2)
  else img

end Frequency

namespace BlurDetection

/-- BlurDetection.applyVerticalEdgeDetection: Spatial.applyFilter with the
registered name Vertical Edge; the registry lookup of that literal always
succeeds, so the successful branch is inlined here. -/
def applyVerticalEdgeDetection (img : List ℕ) (w h : ℕ) : List ℕ :=
  Spatial.applyFilterCore img w h Spatial.verticalEdgeKernel "Vertical Edge"

/-- BlurDetection.applyHorizontalEdgeDetection: Spatial.applyFilter with the
registered name Horizontal Edge. -/
def applyHorizontalEdgeDetection (img : List ℕ) (w h : ℕ) : List ℕ :=
  Spatial.applyFilterCore img w h Spatial.horizontalEdgeKernel "Horizontal Edge"

/-- The grayscale intensity of pixel p of an edge-detection result, the mean
of its three colour bytes with the || 0 defaults. -/
noncomputable def gradGray (res : List ℕ) (p : ℕ) : ℝ :=
  ((res.getD (4 * p) 0 : ℝ) + (res.getD (4 * p + 1) 0 : ℝ)
    + (res.getD (4 * p + 2) 0 : ℝ)) / 3

/-- The gradient magnitude of pixel p from the two edge results. -/
noncomputable def gradMagnitude (vres hres : List ℕ) (p : ℕ) : ℝ :=
  Real.sqrt (gradGray vres p * gradGray vres p + gradGray hres p * gradGray hres p)

/-- The maximum of the first pass of combineResultsIntoMagnitude over the
n = w * h pixel magnitudes, seeded with 0 as in the source. -/
noncomputable def maxMagnitude (vres hres : List ℕ) (n : ℕ) : ℝ :=
  ((List.range n).map (gradMagnitude vres hres)).foldl max 0

/-- The minimum of the first pass, seeded with Infinity as in the source,
modelled in the reals extended with infinities. -/
noncomputable def minMagnitude (vres hres : List ℕ) (n : ℕ) : EReal :=
  ((List.range n).map fun p => ((gradMagnitude vres hres p : ℝ) : EReal)).foldl min ⊤

/-- The normalized magnitude of the second pass: the division by
maxMagnitude - minMagnitude happens only under the test
maxMagnitude > minMagnitude, otherwise the value is 0.  The || 0 read of the
magnitude array is the identity here because magnitudes are nonnegative. -/
noncomputable def normalizedMagnitude (vres hres : List ℕ) (w h p : ℕ) : ℝ :=
  if minMagnitude vres hres (w * h) < ((maxMagnitude vres hres (w * h) : ℝ) : EReal) then
    (gradMagnitude vres hres p - (minMagnitude vres hres (w * h)).toReal) /
      (maxMagnitude vres hres (w * h) - (minMagnitude vres hres (w * h)).toReal) * 255
  else 0

/-- BlurDetection.combineResultsIntoMagnitude: the output array has the
length of the vertical result; the pixel loops write the clamped normalized
magnitude into R, zero into G and B and 255 into alpha for every pixel of
the w by h rectangle, and bytes beyond the written rectangle keep the 0 the
fresh array starts with. -/
noncomputable def combineResultsIntoMagnitude (vres hres : List ℕ) (w h : ℕ) : List ℕ :=
  (List.range vres.length).map fun j =>
    if j / 4 < w * h then
      if j % 4 = 0 then
        clampByteR (min 255 (max 0 (normalizedMagnitude vres hres w h (j / 4))))
      else if j % 4 = 3 then 255
      else 0
    else 0

/-- BlurDetection.applyBothFilters: the two directional edge passes combined
into the single-channel magnitude heatmap. -/
noncomputable def applyBothFilters (img : List ℕ) (w h : ℕ) : List ℕ :=
  combineResultsIntoMagnitude (applyVerticalEdgeDetection img w h)
    (applyHorizontalEdgeDetection img w h) w h

/-- BlurDetection.detectBlur delegates to applyBothFilters. -/
noncomputable def detectBlur (img : List ℕ) (w h : ℕ) : List ℕ :=
  applyBothFilters img w h

end BlurDetection

/-- The dipImage class: width, height and the RGBA data array. -/
structure dipImage where
  width : ℕ
  height : ℕ
  data : List ℕ

/-- The dipImage constructor: a black, fully transparent image of
width * height * 4 zero bytes. -/
def dipImage.mkImage (w h : ℕ) : dipImage := ⟨w, h, List.replicate (w * h * 4) 0⟩

/-- dipImage.getPixel: bounds-checked read returning the four channel bytes
with ?? 0 defaults; out-of-bounds coordinates give (0, 0, 0, 0).  The
source also tests x >= 0 and y >= 0, which is vacuous over naturals. -/
def dipImage.getPixel (img : dipImage) (x y : ℕ) : ℕ × ℕ × ℕ × ℕ :=
  if x < img.width ∧ y < img.height then
    (img.data.getD ((y * img.width + x) * 4) 0,
     img.data.getD ((y * img.width + x) * 4 + 1) 0,
     img.data.getD ((y * img.width + x) * 4 + 2) 0,
     img.data.getD ((y * img.width + x) * 4 + 3) 0)
  else (0, 0, 0, 0)

/-- dipImage.setPixel: bounds-checked write of one RGBA pixel through the
clamped store; out-of-bounds writes are silent no-ops.  The alpha parameter
of the source defaults to 255; callers relying on that default pass 255
explicitly here. -/
def dipImage.setPixel (img : dipImage) (x y : ℕ) (r g b a : ℚ) : dipImage :=
  if x < img.width ∧ y < img.height then
    { img with data :=
        ((((img.data.set ((y * img.width + x) * 4) (clampByte r)).set
            ((y * img.width + x) * 4 + 1) (clampByte g)).set
            ((y * img.width + x) * 4 + 2) (clampByte b)).set
            ((y * img.width + x) * 4 + 3) (clampByte a)) }
  else img

/-- The value toGrayscale computes for pixel (x, y): Math.round of the
luminance 0.299 r + 0.587 g + 0.114 b of the getPixel reads. -/
def dipImage.grayValueAt (img : dipImage) (x y : ℕ) : ℤ :=
  jsRoundQ (0.299 * ((img.getPixel x y).1 : ℚ)
    + 0.587 * ((img.getPixel x y).2.1 : ℚ)
    + 0.114 * ((img.getPixel x y).2.2.1 : ℚ))

/-- The loop body of dipImage.toGrayscale for source image img: write pixel
p of the accumulator image with the rounded luminance of pixel p of img in
all three colour channels and the omitted alpha argument of setPixel, which
defaults to 255. -/
def dipImage.grayscaleStep (img acc : dipImage) (p : ℕ) : dipImage :=
  acc.setPixel (p % img.width) (p / img.width)
    ((img.grayValueAt (p % img.width) (p / img.width) : ℚ))
    ((img.grayValueAt (p % img.width) (p / img.width) : ℚ))
    ((img.grayValueAt (p % img.width) (p / img.width) : ℚ)) 255

/-- dipImage.toGrayscale: a fresh image of the same dimensions; every pixel
is written with grayscaleStep.  The nested y and x loops of the source
enumerate pixels in row-major order, modelled here as a single fold over
p = y * width + x. -/
def dipImage.toGrayscale (img : dipImage) : dipImage :=
  (List.range (img.width * img.height)).foldl img.grayscaleStep
    (dipImage.mkImage img.width img.height)


/-- Reading index j of the buffer produced by mapping f over 0..n-1. -/
lemma getD_map_range (f : ℕ → ℕ) (n j d : ℕ) (h : j < n) :
    ((List.range n).map f).getD j d = f j := by
  simp [List.getD_eq_getElem?_getD, List.getElem?_map, List.getElem?_range, h]

/-- Reading past the end of the buffer produced by mapping f over 0..n-1. -/
lemma getD_map_range_ge (f : ℕ → ℕ) (n j d : ℕ) (h : n ≤ j) :
    ((List.range n).map f).getD j d = d := by
  rw [List.getD_eq_getElem?_getD, List.getElem?_eq_none (by simpa using h)]
  rfl

/-- Storing a byte-sized natural number into a Uint8ClampedArray slot keeps
its value. -/
lemma clampByte_natCast (b : ℕ) (hb : b ≤ 255) : clampByte (b : ℚ) = b := by
  unfold clampByte roundHalfEven
  have h1 : max 0 (b : ℚ) = (b : ℚ) := max_eq_right (by positivity)
  have h2 : min 255 (b : ℚ) = (b : ℚ) := min_eq_right (by exact_mod_cast hb)
  rw [h1, h2]
  norm_num [Int.fract_natCast, round_natCast]

set_option maxHeartbeats 2000000 in
/-- The convolution sum with the identity kernel reproduces the source
sample: the only nonzero kernel entry sits at the center offset, and for an
in-range pixel the clamped sampling coordinates are the pixel itself. -/
lemma convSum_identity (img : List ℕ) (w h x y c : ℕ) (hx : x < w) (hy : y < h) :
    Spatial.convSum img w h Spatial.identityKernel x y c
      = (img.getD ((y * w + x) * 4 + c) 0 : ℚ) := by
  simp only [Spatial.convSum, Spatial.identityKernel, List.length_cons, List.length_nil,
    Finset.sum_range_succ, Finset.sum_range_zero, List.getD_cons_zero, List.getD_cons_succ,
    List.getD_nil]
  norm_num
  have e1 : (0 : ℤ) ⊔ (↑w - 1) ⊓ ↑x = ↑x := by omega
  have e2 : (0 : ℤ) ⊔ (↑h - 1) ⊓ ↑y = ↑y := by omega
  rw [e1, e2]
  rw [if_pos (by omega)]
  simp [Int.toNat_natCast]

/-- The registry lookup returns none exactly for the names outside the stock
registry list. -/
lemma Filters_eq_none_iff (name : String) :
    Spatial.Filters name = none ↔ name ∉ Spatial.registeredKernelNames := by
  simp only [Spatial.Filters, Spatial.registeredKernelNames, List.mem_cons,
    List.not_mem_nil]
  split_ifs with h1 h2 h3 h4 h5 h6 h7 h8 <;> simp_all

/-- C2 (counterexample): on a 1x1 buffer whose alpha byte is 0, the Identity
filter does not return the input byte-for-byte; the alpha byte comes back as
255 because the source copies alpha through the expression
imageData[index + 3] || 255, which turns 0 into 255. -/
theorem spatial_identity_cex :
    Spatial.applyFilter [10, 20, 30, 0] 1 1 "Identity" = Except.ok [10, 20, 30, 255] ∧
    Spatial.applyFilter [10, 20, 30, 0] 1 1 "Identity" ≠ Except.ok [10, 20, 30, 0] := by
  have h0 : Spatial.applyFilter [10, 20, 30, 0] 1 1 "Identity"
      = Except.ok (Spatial.applyFilterCore [10, 20, 30, 0] 1 1
          Spatial.identityKernel "Identity") := rfl
  have h1 : Spatial.applyFilterCore [10, 20, 30, 0] 1 1
      Spatial.identityKernel "Identity" = [10, 20, 30, 255] := by
    simp [Spatial.applyFilterCore, Spatial.identityKernel, Spatial.convSum,
      Spatial.normalizeChannel, clampByte, roundHalfEven, jsOrDefault,
      List.range_succ, Finset.sum_range_succ]
    norm_num [min_def, Int.fract, round_eq, Int.floor_eq_iff]
    omega
  rw [h0, h1]
  exact ⟨rfl, by simp⟩

set_option maxHeartbeats 1000000 in
/-- C2 (amended): the Identity filter reproduces every R, G and B byte of
the input exactly, and reproduces every alpha byte except that an alpha of 0
is replaced by 255; on buffers whose alpha bytes are all nonzero, such as the
2x2 scenario buffer, the output equals the input byte-for-byte. -/
theorem spatial_identity_amended (img : List ℕ) (w h : ℕ)
    (hlen : img.length = w * h * 4) (hbyte : ∀ b ∈ img, b ≤ 255) :
    Spatial.applyFilter img w h "Identity" =
      Except.ok ((List.range (w * h * 4)).map fun j =>
        if j % 4 = 3 then jsOrDefault (img.getD j 0) 255 else img.getD j 0) := by
  have h0 : Spatial.applyFilter img w h "Identity"
      = Except.ok (Spatial.applyFilterCore img w h Spatial.identityKernel "Identity") := rfl
  rw [h0]
  refine congrArg Except.ok ?_
  rw [Spatial.applyFilterCore]
  refine List.map_congr_left ?_
  intro j hj
  rw [List.mem_range] at hj
  have hw : 0 < w := by
    rcases Nat.eq_zero_or_pos w with h0 | h0
    · subst h0; simp at hj
    · exact h0
  have hh : 0 < h := by
    rcases Nat.eq_zero_or_pos h with h0 | h0
    · subst h0; simp at hj
    · exact h0
  have hx : j / 4 % w < w := Nat.mod_lt _ hw
  have hy : j / 4 / w < h := by
    have hi : j / 4 < w * h :=
      Nat.div_lt_of_lt_mul (by rw [Nat.mul_comm 4 (w * h)]; exact hj)
    exact Nat.div_lt_of_lt_mul hi
  have hxy : j / 4 / w * w + j / 4 % w = j / 4 := Nat.div_add_mod' (j / 4) w
  by_cases hc : j % 4 = 3
  · have e : (j / 4 / w * w + j / 4 % w) * 4 + 3 = j := by rw [hxy]; omega
    simp only [hc, if_pos, e, reduceIte]
  · rw [if_neg hc, if_neg hc]
    rw [convSum_identity img w h (j / 4 % w) (j / 4 / w) (j % 4) hx hy]
    rw [hxy]
    have hij : j / 4 * 4 + j % 4 = j := by omega
    rw [hij]
    have hjlen : j < img.length := by rw [hlen]; exact hj
    have hb : img.getD j 0 ≤ 255 := by
      rw [List.getD_eq_getElem img 0 hjlen]
      exact hbyte _ (List.getElem_mem hjlen)
    rw [Spatial.normalizeChannel, if_neg (by decide)]
    have h1 : max 0 (img.getD j 0 : ℚ) = (img.getD j 0 : ℚ) := max_eq_right (by positivity)
    have h2 : min 255 (img.getD j 0 : ℚ) = (img.getD j 0 : ℚ) :=
      min_eq_right (by exact_mod_cast hb)
    rw [h1, h2, clampByte_natCast _ hb]

/-- C2 (witness): the 2x2 scenario buffer passes through the Identity filter
unchanged. -/
theorem spatial_identity_amended_witness :
    Spatial.applyFilter sampleBuffer 2 2 "Identity" = Except.ok sampleBuffer := by
  have h := spatial_identity_amended sampleBuffer 2 2 (by rfl) (by decide)
  rw [h]
  refine congrArg Except.ok ?_
  decide

/-- C3: the spatial filter fails, with the error message naming the offending
kernel, exactly when the requested name is absent from the stock registry;
every registered name resolves to a successful run. -/
theorem spatial_kernel_lookup (img : List ℕ) (w h : ℕ) (name : String) :
    (Spatial.applyFilter img w h name
        = Except.error ("Filter \"" ++ name ++ "\" not found")
      ↔ name ∉ Spatial.registeredKernelNames) ∧
    (name ∈ Spatial.registeredKernelNames →
      ∃ out, Spatial.applyFilter img w h name = Except.ok out) := by
  cases hF : Spatial.Filters name with
  | none =>
      have hn : name ∉ Spatial.registeredKernelNames := (Filters_eq_none_iff name).mp hF
      refine ⟨⟨fun _ => hn, fun _ => ?_⟩, fun hm => absurd hm hn⟩
      simp [Spatial.applyFilter, hF]
  | some k =>
      have hm : name ∈ Spatial.registeredKernelNames := by
        by_contra hn
        rw [(Filters_eq_none_iff name).mpr hn] at hF
        cases hF
      constructor
      · constructor
        · intro hE
          simp [Spatial.applyFilter, hF] at hE
        · intro hn
          exact absurd hm hn
      · intro _
        exact ⟨Spatial.applyFilterCore img w h k name,
          by simp [Spatial.applyFilter, hF]⟩

/-- C3 (witness): the unregistered name Nope fails with the error naming it,
and the registered name Identity resolves without error. -/
theorem spatial_kernel_lookup_witness :
    ("Nope" ∉ Spatial.registeredKernelNames ∧
      Spatial.applyFilter [0, 0, 0, 255] 1 1 "Nope"
        = Except.error ("Filter \"" ++ "Nope" ++ "\" not found")) ∧
    ("Identity" ∈ Spatial.registeredKernelNames ∧
      ∃ out, Spatial.applyFilter [0, 0, 0, 255] 1 1 "Identity" = Except.ok out) :=
  ⟨⟨by decide, (spatial_kernel_lookup [0, 0, 0, 255] 1 1 "Nope").1.mpr (by decide)⟩,
   ⟨by decide, (spatial_kernel_lookup [0, 0, 0, 255] 1 1 "Identity").2 (by decide)⟩⟩

set_option maxHeartbeats 2000000 in
/-- C4 (code bug exhibit): a 1x1 buffer with alpha 0 run through the
registered Gaussian Blur kernel comes back with alpha 255, although the
source line that writes the alpha byte is commented Preserve alpha channel;
the expression imageData[index + 3] || 255 turns an input alpha of 0 into
255 instead of copying it. -/
theorem spatial_alpha_zero_forced_opaque :
    Spatial.applyFilter [10, 20, 30, 0] 1 1 "Gaussian Blur"
      = Except.ok [10, 20, 30, 255] ∧ [10, 20, 30, 0].getD 3 0 = 0 := by
  have h0 : Spatial.applyFilter [10, 20, 30, 0] 1 1 "Gaussian Blur"
      = Except.ok (Spatial.applyFilterCore [10, 20, 30, 0] 1 1
          Spatial.gaussianBlurKernel "Gaussian Blur") := rfl
  have h1 : Spatial.applyFilterCore [10, 20, 30, 0] 1 1
      Spatial.gaussianBlurKernel "Gaussian Blur" = [10, 20, 30, 255] := by
    simp [Spatial.applyFilterCore, Spatial.gaussianBlurKernel, Spatial.convSum,
      Spatial.normalizeChannel, clampByte, roundHalfEven, jsOrDefault,
      List.range_succ, Finset.sum_range_succ]
    norm_num [min_def, Int.fract, round_eq, Int.floor_eq_iff]
    omega
  rw [h0, h1]
  exact ⟨rfl, rfl⟩

/-- A pixel with in-range coordinates has an in-range row-major index. -/
lemma pixel_index_lt {w h x y : ℕ} (hx : x < w) (hy : y < h) :
    y * w + x < w * h := by
  have h1 : y * w + x < (y + 1) * w := by
    rw [Nat.succ_mul]
    omega
  have h2 : (y + 1) * w ≤ h * w := Nat.mul_le_mul_right w hy
  rw [Nat.mul_comm w h]
  omega

/-- Row-major index arithmetic: recovering the coordinates of a pixel. -/
lemma pixel_coords (w x y : ℕ) (hx : x < w) :
    (y * w + x) / w = y ∧ (y * w + x) % w = x := by
  constructor
  · rw [Nat.add_comm, Nat.mul_comm, Nat.add_mul_div_left _ _ (by omega : 0 < w)]
    simp [Nat.div_eq_of_lt hx]
  · rw [Nat.add_comm, Nat.mul_comm, Nat.add_mul_mod_self_left]
    exact Nat.mod_eq_of_lt hx

set_option maxHeartbeats 2000000 in
/-- C7 (counterexample): on the 2x2 scenario buffer the horizontal
projection writes 128 into the red byte of row 0, not the 127 the claim
states: the row mean 127.5 is stored through the clamped array, which
rounds ties to even, so 127.5 becomes 128. -/
theorem horizontal_projection_cex :
    (Projection.applyHorizontalProjection sampleBuffer 2 2).getD 0 0 = 128 ∧
    (Projection.applyHorizontalProjection sampleBuffer 2 2).getD 0 0 ≠ 127 := by
  have h : (Projection.applyHorizontalProjection sampleBuffer 2 2).getD 0 0 = 128 := by
    rw [Projection.applyHorizontalProjection, getD_map_range _ _ _ _ (by norm_num)]
    simp [Projection.rowSum, sampleBuffer, clampByte, roundHalfEven, Finset.sum_range_succ]
    norm_num [min_def, max_def, Int.fract, round_eq, Int.floor_eq_iff]
    omega
  exact ⟨h, by rw [h]; decide⟩

set_option maxHeartbeats 4000000 in
/-- C7 (amended): the horizontal projection broadcasts the clamped-store
rounding of each row mean, which rounds ties to even: the scenario buffer
maps to rows (128, 128, 0) and (64, 64, 192), not (127, 127, 0); in
general all pixels of a row receive identical R, G and B bytes, and every
alpha byte is copied unchanged from the same position of the input. -/
theorem horizontal_projection_amended :
    (Projection.applyHorizontalProjection sampleBuffer 2 2 =
      [128, 128, 0, 255, 128, 128, 0, 255, 64, 64, 192, 255, 64, 64, 192, 255]) ∧
    (∀ (img : List ℕ) (w h y x1 x2 c : ℕ), x1 < w → x2 < w → y < h → c < 3 →
      (Projection.applyHorizontalProjection img w h).getD ((y * w + x1) * 4 + c) 0 =
        (Projection.applyHorizontalProjection img w h).getD ((y * w + x2) * 4 + c) 0) ∧
    (∀ (img : List ℕ) (w h x y : ℕ), x < w → y < h →
      (Projection.applyHorizontalProjection img w h).getD ((y * w + x) * 4 + 3) 0 =
        img.getD ((y * w + x) * 4 + 3) 0) := by
  refine ⟨?_, ?_, ?_⟩
  · simp [Projection.applyHorizontalProjection, Projection.rowSum, sampleBuffer,
      clampByte, roundHalfEven, List.range_succ, Finset.sum_range_succ]
    norm_num [min_def, max_def, Int.fract, round_eq, Int.floor_eq_iff]
    omega
  · intro img w h y x1 x2 c hx1 hx2 hy hc
    have hj1 : (y * w + x1) * 4 + c < w * h * 4 := by
      have := pixel_index_lt hx1 hy
      omega
    have hj2 : (y * w + x2) * 4 + c < w * h * 4 := by
      have := pixel_index_lt hx2 hy
      omega
    simp only [Projection.applyHorizontalProjection]
    rw [getD_map_range _ _ _ _ hj1, getD_map_range _ _ _ _ hj2]
    have d1 : ((y * w + x1) * 4 + c) / 4 = y * w + x1 := by omega
    have d2 : ((y * w + x2) * 4 + c) / 4 = y * w + x2 := by omega
    have m1 : ((y * w + x1) * 4 + c) % 4 = c := by omega
    have m2 : ((y * w + x2) * 4 + c) % 4 = c := by omega
    simp only [d1, d2, m1, m2, (pixel_coords w x1 y hx1).1, (pixel_coords w x2 y hx2).1,
      if_neg (by omega : ¬ c = 3)]
  · intro img w h x y hx hy
    have hj : (y * w + x) * 4 + 3 < w * h * 4 := by
      have := pixel_index_lt hx hy
      omega
    simp only [Projection.applyHorizontalProjection]
    rw [getD_map_range _ _ _ _ hj]
    have d1 : ((y * w + x) * 4 + 3) / 4 = y * w + x := by omega
    have m1 : ((y * w + x) * 4 + 3) % 4 = 3 := by omega
    simp only [d1, m1, (pixel_coords w x y hx).1, (pixel_coords w x y hx).2, if_true]

/-- C7 (witness): on the scenario buffer the two pixels of row 0 receive the
same red byte, obtained from the amended row-uniformity statement. -/
theorem horizontal_projection_amended_witness :
    (Projection.applyHorizontalProjection sampleBuffer 2 2).getD 0 0 =
      (Projection.applyHorizontalProjection sampleBuffer 2 2).getD 4 0 := by
  have h := horizontal_projection_amended.2.1 sampleBuffer 2 2 0 0 1 0
    (by decide) (by decide) (by decide) (by decide)
  simpa using h

/-- C6: an unrecognized frequency filter type makes the dispatcher return
the input buffer itself, and an unrecognized projection type makes the
projection dispatcher return a byte-for-byte copy of the input whenever the
input has the advertised w * h * 4 length; both dispatchers are total, so no
error can be raised. -/
theorem unknown_selector_fallback (img : List ℕ) (w h : ℕ) (t : String)
    (hlen : img.length = w * h * 4) :
    (t ≠ "lowpass" → t ≠ "highpass" → t ≠ "bandpass" →
      Frequency.applyFrequencyFilter img w h t = img) ∧
    (t ≠ "horizontal" → t ≠ "vertical" → t ≠ "radial" → t ≠ "angular" →
      Projection.applyCustomProjection img w h t = img) := by
  constructor
  · intro h1 h2 h3
    rw [Frequency.applyFrequencyFilter, if_neg h1, if_neg h2, if_neg h3]
  · intro h1 h2 h3 h4
    rw [Projection.applyCustomProjection, if_neg h1, if_neg h2, if_neg h3, if_neg h4]
    refine List.ext_getElem? fun i => ?_
    rcases Nat.lt_or_ge i (w * h * 4) with hi | hi
    · have hil : i < img.length := by omega
      rw [List.getElem?_map, List.getElem?_range hi]
      show some (if i < img.length then img.getD i 0 else 0) = img[i]?
      rw [if_pos hil, List.getD_eq_getElem img 0 hil, List.getElem?_eq_getElem hil]
    · have hil : img.length ≤ i := by omega
      rw [List.getElem?_map, List.getElem?_eq_none (by simpa using hi),
        List.getElem?_eq_none hil]
      rfl

/-- C6 (witness): the bogus-type tag passes the scenario buffer through both
dispatchers unchanged. -/
theorem unknown_selector_fallback_witness :
    Frequency.applyFrequencyFilter sampleBuffer 2 2 "bogus-type" = sampleBuffer ∧
    Projection.applyCustomProjection sampleBuffer 2 2 "bogus-type" = sampleBuffer := by
  have h := unknown_selector_fallback sampleBuffer 2 2 "bogus-type" (by decide)
  exact ⟨h.1 (by decide) (by decide) (by decide),
    h.2 (by decide) (by decide) (by decide) (by decide)⟩

/-- Math.round sends 0 to 0. -/
lemma jsRound_zero : jsRound 0 = 0 := by
  norm_num [jsRound, Int.floor_eq_iff]

/-- C9 (counterexample): on a 1x1 uniform gray input the radial projection
reaches the per-pixel division with a divisor of exactly 0 (the only pixel
is the center, distance 0), and stores the IEEE outcome of that division:
100 / 0 = Infinity, clamped to 255.  The division is therefore evaluated at
a distance that is not strictly positive, against the claim. -/
theorem radial_center_division_cex :
    Projection.radialDistance 1 1 0 0 = 0 ∧
    (Projection.applyRadialProjection [100, 100, 100, 255] 1 1).getD 0 0 = 255 := by
  have hd : Projection.radialDistance 1 1 0 0 = 0 := by
    norm_num [Projection.radialDistance]
  have hs : Projection.radialSum [100, 100, 100, 255] 1 1 0 0 0 = 100 := by
    rw [Projection.radialSum]
    norm_num [Projection.radialDistance, Finset.sum_range_succ, jsRound_zero]
  refine ⟨hd, ?_⟩
  rw [Projection.applyRadialProjection, getD_map_range _ _ _ _ (by norm_num)]
  norm_num [Projection.jsClampDiv, hd, hs]

/-- C9 (amended): the radial projection has no divide-by-zero guard: at a
pixel whose distance from the center is 0 the division is still evaluated,
and under the IEEE semantics of the source the colour byte becomes 255 when
the sampled sum is positive and 0 when the sum is zero; no error is raised
in either case. -/
theorem radial_center_division_amended (img : List ℕ) (w h x y c : ℕ)
    (hx : x < w) (hy : y < h) (hc : c < 3)
    (hd : Projection.radialDistance w h x y = 0) :
    (0 < Projection.radialSum img w h x y c →
      (Projection.applyRadialProjection img w h).getD ((y * w + x) * 4 + c) 0 = 255) ∧
    (Projection.radialSum img w h x y c = 0 →
      (Projection.applyRadialProjection img w h).getD ((y * w + x) * 4 + c) 0 = 0) := by
  have hj : (y * w + x) * 4 + c < w * h * 4 := by
    have := pixel_index_lt hx hy
    omega
  have d1 : ((y * w + x) * 4 + c) / 4 = y * w + x := by omega
  have m1 : ((y * w + x) * 4 + c) % 4 = c := by omega
  rw [Projection.applyRadialProjection, getD_map_range _ _ _ _ hj]
  simp only [d1, m1, (pixel_coords w x y hx).1, (pixel_coords w x y hx).2,
    if_neg (by omega : ¬ c = 3)]
  rw [Projection.jsClampDiv, hd, if_pos rfl]
  constructor
  · intro hs
    rw [if_pos hs]
  · intro hs
    rw [hs]
    simp

/-- C9 (witness): the amended statement applied to the 1x1 uniform gray
input, whose center sum is 100 and whose center distance is 0. -/
theorem radial_center_division_amended_witness :
    (Projection.applyRadialProjection [100, 100, 100, 255] 1 1).getD 1 0 = 255 := by
  have hd : Projection.radialDistance 1 1 0 0 = 0 := by
    norm_num [Projection.radialDistance]
  have hs : Projection.radialSum [100, 100, 100, 255] 1 1 0 0 1 = 100 := by
    rw [Projection.radialSum]
    norm_num [Projection.radialDistance, Finset.sum_range_succ, jsRound_zero]
  have h := (radial_center_division_amended [100, 100, 100, 255] 1 1 0 0 1
    (by decide) (by decide) (by decide) hd).1 (by rw [hs]; norm_num)
  simpa using h

/-- Byte-level description of the applyLowPassFilter output at pixel i. -/
lemma lowPassFilter_bytes (img : List ℕ) (w h : ℕ) (cutoff : ℝ) (i : ℕ)
    (hi : i < w * h) :
    (Frequency.applyLowPassFilter img w h cutoff).getD (i * 4) 0
        = (if Frequency.lowPassRetains w h cutoff i
            then clampByteR (Frequency.applyFFTre img w h i) else 0) ∧
    (Frequency.applyLowPassFilter img w h cutoff).getD (i * 4 + 1) 0
        = (if Frequency.lowPassRetains w h cutoff i
            then clampByteR (Frequency.applyFFTim img w h i) else 0) ∧
    (Frequency.applyLowPassFilter img w h cutoff).getD (i * 4 + 2) 0
        = (if Frequency.lowPassRetains w h cutoff i
            then clampByteR (Frequency.applyFFTre img w h i) else 0) ∧
    (Frequency.applyLowPassFilter img w h cutoff).getD (i * 4 + 3) 0
        = jsOrDefault (img.getD (i * 4 + 3) 0) 255 := by
  refine ⟨?_, ?_, ?_, ?_⟩
  · rw [Frequency.applyLowPassFilter, getD_map_range _ _ _ _ (by omega : i * 4 < w * h * 4)]
    have d : i * 4 / 4 = i := by omega
    have m : i * 4 % 4 = 0 := by omega
    simp only [d, m]
    norm_num
  · rw [Frequency.applyLowPassFilter, getD_map_range _ _ _ _ (by omega : i * 4 + 1 < w * h * 4)]
    have d : (i * 4 + 1) / 4 = i := by omega
    have m : (i * 4 + 1) % 4 = 1 := by omega
    simp only [d, m]
    norm_num
  · rw [Frequency.applyLowPassFilter, getD_map_range _ _ _ _ (by omega : i * 4 + 2 < w * h * 4)]
    have d : (i * 4 + 2) / 4 = i := by omega
    have m : (i * 4 + 2) % 4 = 2 := by omega
    simp only [d, m]
    norm_num
  · rw [Frequency.applyLowPassFilter, getD_map_range _ _ _ _ (by omega : i * 4 + 3 < w * h * 4)]
    have d : (i * 4 + 3) / 4 = i := by omega
    have m : (i * 4 + 3) % 4 = 3 := by omega
    simp only [d, m]
    norm_num

/-- Byte-level description of the applyHighPassFilter output at pixel i. -/
lemma highPassFilter_bytes (img : List ℕ) (w h : ℕ) (cutoff : ℝ) (i : ℕ)
    (hi : i < w * h) :
    (Frequency.applyHighPassFilter img w h cutoff).getD (i * 4) 0
        = (if Frequency.highPassRetains w h cutoff i
            then clampByteR (Frequency.applyFFTre img w h i) else 0) ∧
    (Frequency.applyHighPassFilter img w h cutoff).getD (i * 4 + 1) 0
        = (if Frequency.highPassRetains w h cutoff i
            then clampByteR (Frequency.applyFFTim img w h i) else 0) ∧
    (Frequency.applyHighPassFilter img w h cutoff).getD (i * 4 + 2) 0
        = (if Frequency.highPassRetains w h cutoff i
            then clampByteR (Frequency.applyFFTre img w h i) else 0) ∧
    (Frequency.applyHighPassFilter img w h cutoff).getD (i * 4 + 3) 0
        = jsOrDefault (img.getD (i * 4 + 3) 0) 255 := by
  refine ⟨?_, ?_, ?_, ?_⟩
  · rw [Frequency.applyHighPassFilter, getD_map_range _ _ _ _ (by omega : i * 4 < w * h * 4)]
    have d : i * 4 / 4 = i := by omega
    have m : i * 4 % 4 = 0 := by omega
    simp only [d, m]
    norm_num
  · rw [Frequency.applyHighPassFilter, getD_map_range _ _ _ _ (by omega : i * 4 + 1 < w * h * 4)]
    have d : (i * 4 + 1) / 4 = i := by omega
    have m : (i * 4 + 1) % 4 = 1 := by omega
    simp only [d, m]
    norm_num
  · rw [Frequency.applyHighPassFilter, getD_map_range _ _ _ _ (by omega : i * 4 + 2 < w * h * 4)]
    have d : (i * 4 + 2) / 4 = i := by omega
    have m : (i * 4 + 2) % 4 = 2 := by omega
    simp only [d, m]
    norm_num
  · rw [Frequency.applyHighPassFilter, getD_map_range _ _ _ _ (by omega : i * 4 + 3 < w * h * 4)]
    have d : (i * 4 + 3) / 4 = i := by omega
    have m : (i * 4 + 3) % 4 = 3 := by omega
    simp only [d, m]
    norm_num

/-- Byte-level description of the applyBandPassFilter output at pixel i. -/
lemma bandPassFilter_bytes (img : List ℕ) (w h : ℕ) (lo hi : ℝ) (i : ℕ)
    (hwh : i < w * h) :
    (Frequency.applyBandPassFilter img w h lo hi).getD (i * 4) 0
        = (if Frequency.bandPassRetains w h lo hi i
            then clampByteR (Frequency.applyFFTre img w h i) else 0) ∧
    (Frequency.applyBandPassFilter img w h lo hi).getD (i * 4 + 1) 0
        = (if Frequency.bandPassRetains w h lo hi i
            then clampByteR (Frequency.applyFFTim img w h i) else 0) ∧
    (Frequency.applyBandPassFilter img w h lo hi).getD (i * 4 + 2) 0
        = (if Frequency.bandPassRetains w h lo hi i
            then clampByteR (Frequency.applyFFTre img w h i) else 0) ∧
    (Frequency.applyBandPassFilter img w h lo hi).getD (i * 4 + 3) 0
        = jsOrDefault (img.getD (i * 4 + 3) 0) 255 := by
  refine ⟨?_, ?_, ?_, ?_⟩
  · rw [Frequency.applyBandPassFilter, getD_map_range _ _ _ _ (by omega : i * 4 < w * h * 4)]
    have d : i * 4 / 4 = i := by omega
    have m : i * 4 % 4 = 0 := by omega
    simp only [d, m]
    norm_num
  · rw [Frequency.applyBandPassFilter, getD_map_range _ _ _ _ (by omega : i * 4 + 1 < w * h * 4)]
    have d : (i * 4 + 1) / 4 = i := by omega
    have m : (i * 4 + 1) % 4 = 1 := by omega
    simp only [d, m]
    norm_num
  · rw [Frequency.applyBandPassFilter, getD_map_range _ _ _ _ (by omega : i * 4 + 2 < w * h * 4)]
    have d : (i * 4 + 2) / 4 = i := by omega
    have m : (i * 4 + 2) % 4 = 2 := by omega
    simp only [d, m]
    norm_num
  · rw [Frequency.applyBandPassFilter, getD_map_range _ _ _ _ (by omega : i * 4 + 3 < w * h * 4)]
    have d : (i * 4 + 3) / 4 = i := by omega
    have m : (i * 4 + 3) % 4 = 3 := by omega
    simp only [d, m]
    norm_num


/-- C1 (counterexample): the low-pass filter output is not an alpha-255
grayscale magnitude visualization: on a 1x1 buffer whose alpha byte is 128
the output alpha byte is 128, not 255, because the filters copy the input
alpha through imageData[i * 4 + 3] || 255 instead of running the inverse
transform, which always writes alpha 255. -/
theorem freq_lowpass_alpha_cex :
    (Frequency.applyLowPassFilter [10, 20, 30, 128] 1 1 1).getD 3 0 = 128 ∧
    (Frequency.applyLowPassFilter [10, 20, 30, 128] 1 1 1).getD 3 0 ≠ 255 := by
  have h : (Frequency.applyLowPassFilter [10, 20, 30, 128] 1 1 1).getD 3 0 = 128 := by
    have hb := (lowPassFilter_bytes [10, 20, 30, 128] 1 1 1 0 (by decide)).2.2.2
    simpa [jsOrDefault] using hb
  exact ⟨h, by rw [h]; decide⟩

/-- C1 (amended): none of the three frequency filters runs the inverse
transform; each writes the masked forward-transform data directly into the
colour channels: the real part into R and B (so R = B always), the
imaginary part into G, zeros where the bin is not retained, and copies the
input alpha through the || 255 expression (so alpha is the input alpha
unless that is 0, which becomes 255, rather than the constant 255 of a
magnitude visualization). -/
theorem freq_filters_direct_write (img : List ℕ) (w h : ℕ) (cutoff lo hi : ℝ)
    (i : ℕ) (hiwh : i < w * h) :
    ((Frequency.applyLowPassFilter img w h cutoff).getD (i * 4) 0
        = (Frequency.applyLowPassFilter img w h cutoff).getD (i * 4 + 2) 0 ∧
      (Frequency.applyLowPassFilter img w h cutoff).getD (i * 4 + 3) 0
        = jsOrDefault (img.getD (i * 4 + 3) 0) 255 ∧
      (Frequency.lowPassRetains w h cutoff i →
        (Frequency.applyLowPassFilter img w h cutoff).getD (i * 4) 0
            = clampByteR (Frequency.applyFFTre img w h i) ∧
        (Frequency.applyLowPassFilter img w h cutoff).getD (i * 4 + 1) 0
            = clampByteR (Frequency.applyFFTim img w h i)) ∧
      (¬ Frequency.lowPassRetains w h cutoff i →
        (Frequency.applyLowPassFilter img w h cutoff).getD (i * 4) 0 = 0 ∧
        (Frequency.applyLowPassFilter img w h cutoff).getD (i * 4 + 1) 0 = 0)) ∧
    ((Frequency.applyHighPassFilter img w h cutoff).getD (i * 4) 0
        = (Frequency.applyHighPassFilter img w h cutoff).getD (i * 4 + 2) 0 ∧
      (Frequency.applyHighPassFilter img w h cutoff).getD (i * 4 + 3) 0
        = jsOrDefault (img.getD (i * 4 + 3) 0) 255 ∧
      (Frequency.highPassRetains w h cutoff i →
        (Frequency.applyHighPassFilter img w h cutoff).getD (i * 4) 0
            = clampByteR (Frequency.applyFFTre img w h i) ∧
        (Frequency.applyHighPassFilter img w h cutoff).getD (i * 4 + 1) 0
            = clampByteR (Frequency.applyFFTim img w h i)) ∧
      (¬ Frequency.highPassRetains w h cutoff i →
        (Frequency.applyHighPassFilter img w h cutoff).getD (i * 4) 0 = 0 ∧
        (Frequency.applyHighPassFilter img w h cutoff).getD (i * 4 + 1) 0 = 0)) ∧
    ((Frequency.applyBandPassFilter img w h lo hi).getD (i * 4) 0
        = (Frequency.applyBandPassFilter img w h lo hi).getD (i * 4 + 2) 0 ∧
      (Frequency.applyBandPassFilter img w h lo hi).getD (i * 4 + 3) 0
        = jsOrDefault (img.getD (i * 4 + 3) 0) 255 ∧
      (Frequency.bandPassRetains w h lo hi i →
        (Frequency.applyBandPassFilter img w h lo hi).getD (i * 4) 0
            = clampByteR (Frequency.applyFFTre img w h i) ∧
        (Frequency.applyBandPassFilter img w h lo hi).getD (i * 4 + 1) 0
            = clampByteR (Frequency.applyFFTim img w h i)) ∧
      (¬ Frequency.bandPassRetains w h lo hi i →
        (Frequency.applyBandPassFilter img w h lo hi).getD (i * 4) 0 = 0 ∧
        (Frequency.applyBandPassFilter img w h lo hi).getD (i * 4 + 1) 0 = 0)) := by
  obtain ⟨l0, l1, l2, l3⟩ := lowPassFilter_bytes img w h cutoff i hiwh
  obtain ⟨h0, h1, h2, h3⟩ := highPassFilter_bytes img w h cutoff i hiwh
  obtain ⟨b0, b1, b2, b3⟩ := bandPassFilter_bytes img w h lo hi i hiwh
  refine ⟨⟨?_, l3, ?_, ?_⟩, ⟨?_, h3, ?_, ?_⟩, ⟨?_, b3, ?_, ?_⟩⟩
  · rw [l0, l2]
  · intro hr
    rw [l0, l1, if_pos hr, if_pos hr]
    exact ⟨rfl, rfl⟩
  · intro hr
    rw [l0, l1, if_neg hr, if_neg hr]
    exact ⟨rfl, rfl⟩
  · rw [h0, h2]
  · intro hr
    rw [h0, h1, if_pos hr, if_pos hr]
    exact ⟨rfl, rfl⟩
  · intro hr
    rw [h0, h1, if_neg hr, if_neg hr]
    exact ⟨rfl, rfl⟩
  · rw [b0, b2]
  · intro hr
    rw [b0, b1, if_pos hr, if_pos hr]
    exact ⟨rfl, rfl⟩
  · intro hr
    rw [b0, b1, if_neg hr, if_neg hr]
    exact ⟨rfl, rfl⟩

/-- C1 (witness): on a concrete 1x1 buffer the R and B bytes of all three
filter outputs agree and the low-pass alpha byte carries the input alpha. -/
theorem freq_filters_direct_write_witness :
    (Frequency.applyLowPassFilter [10, 20, 30, 128] 1 1 1).getD 0 0
      = (Frequency.applyLowPassFilter [10, 20, 30, 128] 1 1 1).getD 2 0 ∧
    (Frequency.applyHighPassFilter [10, 20, 30, 128] 1 1 1).getD 0 0
      = (Frequency.applyHighPassFilter [10, 20, 30, 128] 1 1 1).getD 2 0 ∧
    (Frequency.applyBandPassFilter [10, 20, 30, 128] 1 1 0 2).getD 0 0
      = (Frequency.applyBandPassFilter [10, 20, 30, 128] 1 1 0 2).getD 2 0 := by
  have h := freq_filters_direct_write [10, 20, 30, 128] 1 1 1 0 2 0 (by decide)
  exact ⟨by simpa using h.1.1, by simpa using h.2.1.1, by simpa using h.2.2.1⟩

/-- The distance of bin 1 of a 2x2 field from the field center is exactly 1. -/
lemma freqDist_two_two_one : Frequency.freqDist 2 2 1 = 1 := by
  rw [Frequency.freqDist]
  norm_num

/-- C5 (counterexample): on a 2x2 field with cutoffs low = 1 and high = 2,
bin 1 sits at distance exactly 1 from the center: the band-pass filter
retains it (dist >= low) but the high-pass filter with cutoff 1 does not
(dist > cutoff fails), so the band-pass retained set is not the
intersection of the high-pass and low-pass retained sets. -/
theorem bandpass_retained_cex :
    ¬ (Frequency.bandPassRetains 2 2 1 2 1 ↔
        (Frequency.highPassRetains 2 2 1 1 ∧ Frequency.lowPassRetains 2 2 2 1)) := by
  rw [Frequency.bandPassRetains, Frequency.highPassRetains,
    Frequency.lowPassRetains, freqDist_two_two_one]
  norm_num

/-- C5 (amended): a bin is retained by the band-pass filter exactly when it
is retained by the low-pass filter at the high cutoff and either retained by
the high-pass filter at the low cutoff or at distance exactly equal to the
low cutoff; the two sides differ precisely on the bins whose distance equals
the low cutoff, which band-pass keeps (dist >= low) and high-pass drops
(dist > low). -/
theorem bandpass_retained_amended (w h : ℕ) (lo hi : ℝ) (i : ℕ) :
    Frequency.bandPassRetains w h lo hi i ↔
      ((Frequency.highPassRetains w h lo i ∨ Frequency.freqDist w h i = lo) ∧
        Frequency.lowPassRetains w h hi i) := by
  rw [Frequency.bandPassRetains, Frequency.highPassRetains, Frequency.lowPassRetains]
  constructor
  · rintro ⟨h1, h2⟩
    rcases lt_or_eq_of_le h1 with hlt | heq
    · exact ⟨Or.inl hlt, h2⟩
    · exact ⟨Or.inr heq.symm, h2⟩
  · rintro ⟨h1 | h1, h2⟩
    · exact ⟨le_of_lt h1, h2⟩
    · exact ⟨le_of_eq h1.symm, h2⟩

/-- A left fold of max stays below any bound dominating the seed and every
element. -/
lemma foldl_max_le {α : Type} [LinearOrder α] (m : α) :
    ∀ (l : List α) (a : α), a ≤ m → (∀ x ∈ l, x ≤ m) → l.foldl max a ≤ m := by
  intro l
  induction l with
  | nil =>
      intro a ha _
      simpa using ha
  | cons x xs ih =>
      intro a ha hl
      simp only [List.foldl_cons]
      exact ih (max a x) (max_le ha (hl x (by simp))) fun y hy => hl y (by simp [hy])

/-- A left fold of min stays above any bound below the seed and every
element. -/
lemma le_foldl_min {α : Type} [LinearOrder α] (m : α) :
    ∀ (l : List α) (a : α), m ≤ a → (∀ x ∈ l, m ≤ x) → m ≤ l.foldl min a := by
  intro l
  induction l with
  | nil =>
      intro a ha _
      simpa using ha
  | cons x xs ih =>
      intro a ha hl
      simp only [List.foldl_cons]
      exact ih (min a x) (le_min ha (hl x (by simp))) fun y hy => hl y (by simp [hy])

/-- The clamped store of 0 is the byte 0. -/
lemma clampByteR_zero : clampByteR 0 = 0 := by
  norm_num [clampByteR, roundHalfEvenR, Int.fract]

/-- C10: in the blur-detection heatmap the green and blue bytes are always
0 and the alpha byte of every written pixel is 255; the min-max
normalization divides only when the maximum gradient magnitude strictly
exceeds the minimum, so when all per-pixel magnitudes are equal (as on a
uniform input) the guarded branch is skipped and every red byte is 0: the
degenerate case yields an all-black heatmap instead of a division by
zero. -/
theorem blur_normalization_guard (vres hres : List ℕ) (w h j : ℕ)
    (hj : j < vres.length) :
    (j % 4 = 1 ∨ j % 4 = 2 →
      (BlurDetection.combineResultsIntoMagnitude vres hres w h).getD j 0 = 0) ∧
    (j % 4 = 3 → j / 4 < w * h →
      (BlurDetection.combineResultsIntoMagnitude vres hres w h).getD j 0 = 255) ∧
    ((∀ p, p < w * h → ∀ q, q < w * h →
        BlurDetection.gradMagnitude vres hres p
          = BlurDetection.gradMagnitude vres hres q) →
      j % 4 = 0 →
      (BlurDetection.combineResultsIntoMagnitude vres hres w h).getD j 0 = 0) := by
  rw [BlurDetection.combineResultsIntoMagnitude]
  rw [getD_map_range _ _ _ _ hj]
  refine ⟨?_, ?_, ?_⟩
  · intro hc
    by_cases hp : j / 4 < w * h
    · rcases hc with hc | hc <;> simp [hp, hc]
    · simp [hp]
  · intro hc hp
    simp [hp, hc]
  · intro heq hc
    by_cases hp : j / 4 < w * h
    · have hmax : BlurDetection.maxMagnitude vres hres (w * h)
          ≤ BlurDetection.gradMagnitude vres hres (j / 4) := by
        refine foldl_max_le _ _ _ (Real.sqrt_nonneg _) ?_
        intro x hx
        rw [List.mem_map] at hx
        obtain ⟨p, hp', rfl⟩ := hx
        rw [List.mem_range] at hp'
        rw [heq p hp' (j / 4) hp]
      have hmin : ((BlurDetection.gradMagnitude vres hres (j / 4) : ℝ) : EReal)
          ≤ BlurDetection.minMagnitude vres hres (w * h) := by
        refine le_foldl_min _ _ _ le_top ?_
        intro x hx
        rw [List.mem_map] at hx
        obtain ⟨p, hp', rfl⟩ := hx
        rw [List.mem_range] at hp'
        rw [heq p hp' (j / 4) hp]
      have hcond : ¬ BlurDetection.minMagnitude vres hres (w * h)
          < ((BlurDetection.maxMagnitude vres hres (w * h) : ℝ) : EReal) := by
        refine not_lt.mpr ?_
        refine le_trans ?_ hmin
        exact_mod_cast hmax
      simp only [hp, if_true, hc, if_pos]
      rw [BlurDetection.normalizedMagnitude, if_neg hcond]
      norm_num [clampByteR_zero]
    · simp [hp]

/-- C10 (witness): on a 1x1 pair of edge results with zero colour channels
the single gradient magnitude is trivially uniform and the red byte of the
heatmap is 0. -/
theorem blur_normalization_guard_witness :
    (BlurDetection.combineResultsIntoMagnitude [0, 0, 0, 9] [0, 0, 0, 9] 1 1).getD 0 0
      = 0 := by
  have h := (blur_normalization_guard [0, 0, 0, 9] [0, 0, 0, 9] 1 1 0 (by decide)).2.2
  refine h ?_ (by decide)
  intro p hp q hq
  have hp0 : p = 0 := by omega
  have hq0 : q = 0 := by omega
  rw [hp0, hq0]

/-- Reading beside a freshly set position. -/
lemma getD_set_ne (l : List ℕ) (i j a d : ℕ) (h : i ≠ j) :
    (l.set i a).getD j d = l.getD j d := by
  rw [List.getD_eq_getElem?_getD, List.getElem?_set_ne h, ← List.getD_eq_getElem?_getD]

/-- Reading a freshly set in-bounds position. -/
lemma getD_set_self (l : List ℕ) (j a d : ℕ) (h : j < l.length) :
    (l.set j a).getD j d = a := by
  rw [List.getD_eq_getElem?_getD, List.getElem?_set_self (by simpa using h)]
  rfl

/-- Shape of the toGrayscale fold after n steps: dimensions are those of the
source, the data length is full, bytes of pixels already written hold the
clamped gray value (alpha 255) and bytes of pixels not yet written hold the
0 of the fresh image. -/
lemma toGrayscale_fold (img : dipImage) :
    ∀ n : ℕ, n ≤ img.width * img.height →
      ((List.range n).foldl img.grayscaleStep
          (dipImage.mkImage img.width img.height)).width = img.width ∧
      ((List.range n).foldl img.grayscaleStep
          (dipImage.mkImage img.width img.height)).height = img.height ∧
      ((List.range n).foldl img.grayscaleStep
          (dipImage.mkImage img.width img.height)).data.length
        = img.width * img.height * 4 ∧
      ∀ j, j < img.width * img.height * 4 →
        ((List.range n).foldl img.grayscaleStep
            (dipImage.mkImage img.width img.height)).data.getD j 0
          = if j / 4 < n then
              (if j % 4 = 3 then clampByte 255
               else clampByte
                 ((img.grayValueAt (j / 4 % img.width) (j / 4 / img.width) : ℚ)))
            else 0 := by
  intro n
  induction n with
  | zero =>
      intro _
      refine ⟨rfl, rfl, by simp [dipImage.mkImage], ?_⟩
      intro j hj
      rw [if_neg (by omega)]
      simp only [List.range_zero, List.foldl_nil, dipImage.mkImage,
        List.getD_eq_getElem?_getD, List.getElem?_replicate]
      rw [if_pos hj]
      rfl
  | succ n ih =>
      intro hn1
      obtain ⟨hw', hh', hlen, hbytes⟩ := ih (by omega)
      rw [List.range_succ, List.foldl_append, List.foldl_cons, List.foldl_nil]
      have hwpos : 0 < img.width := by
        rcases Nat.eq_zero_or_pos img.width with h0 | h0
        · rw [h0] at hn1
          simp at hn1
        · exact h0
      have hx : n % img.width < img.width := Nat.mod_lt _ hwpos
      have hy : n / img.width < img.height :=
        Nat.div_lt_of_lt_mul (by omega : n < img.width * img.height)
      have hbase : (n / img.width * img.width + n % img.width) * 4 = n * 4 := by
        rw [Nat.div_add_mod' n img.width]
      rw [dipImage.grayscaleStep, dipImage.setPixel, if_pos (by rw [hw', hh']; exact ⟨hx, hy⟩)]
      rw [hw', hbase]
      refine ⟨rfl, hh', by simp [List.length_set, hlen], ?_⟩
      intro j hj
      have hj4 : j / 4 < img.width * img.height := by omega
      rcases Nat.lt_trichotomy (j / 4) n with hlt | heq | hgt
      · have hne0 : n * 4 ≠ j := by omega
        have hne1 : n * 4 + 1 ≠ j := by omega
        have hne2 : n * 4 + 2 ≠ j := by omega
        have hne3 : n * 4 + 3 ≠ j := by omega
        rw [getD_set_ne _ _ _ _ _ hne3, getD_set_ne _ _ _ _ _ hne2,
          getD_set_ne _ _ _ _ _ hne1, getD_set_ne _ _ _ _ _ hne0, hbytes j hj]
        rw [if_pos hlt, if_pos (show j / 4 < n + 1 by omega)]
      · by_cases hc : j % 4 = 3
        · have hej : n * 4 + 3 = j := by omega
          rw [hej, getD_set_self _ _ _ _ (by simp [List.length_set, hlen]; omega)]
          rw [if_pos (show j / 4 < n + 1 by omega), if_pos hc]
        · rcases (by omega : j % 4 = 0 ∨ j % 4 = 1 ∨ j % 4 = 2) with hc' | hc' | hc'
          · have hne3 : n * 4 + 3 ≠ j := by omega
            have hne2 : n * 4 + 2 ≠ j := by omega
            have hne1 : n * 4 + 1 ≠ j := by omega
            have hej : n * 4 = j := by omega
            rw [getD_set_ne _ _ _ _ _ hne3, getD_set_ne _ _ _ _ _ hne2,
              getD_set_ne _ _ _ _ _ hne1, hej,
              getD_set_self _ _ _ _ (by rw [hlen]; omega)]
            rw [if_pos (show j / 4 < n + 1 by omega), if_neg hc, heq]
          · have hne3 : n * 4 + 3 ≠ j := by omega
            have hne2 : n * 4 + 2 ≠ j := by omega
            have hej : n * 4 + 1 = j := by omega
            rw [getD_set_ne _ _ _ _ _ hne3, getD_set_ne _ _ _ _ _ hne2, hej,
              getD_set_self _ _ _ _ (by simp [List.length_set, hlen]; omega)]
            rw [if_pos (show j / 4 < n + 1 by omega), if_neg hc, heq]
          · have hne3 : n * 4 + 3 ≠ j := by omega
            have hej : n * 4 + 2 = j := by omega
            rw [getD_set_ne _ _ _ _ _ hne3, hej,
              getD_set_self _ _ _ _ (by simp [List.length_set, hlen]; omega)]
            rw [if_pos (show j / 4 < n + 1 by omega), if_neg hc, heq]
      · have hne0 : n * 4 ≠ j := by omega
        have hne1 : n * 4 + 1 ≠ j := by omega
        have hne2 : n * 4 + 2 ≠ j := by omega
        have hne3 : n * 4 + 3 ≠ j := by omega
        rw [getD_set_ne _ _ _ _ _ hne3, getD_set_ne _ _ _ _ _ hne2,
          getD_set_ne _ _ _ _ _ hne1, getD_set_ne _ _ _ _ _ hne0, hbytes j hj]
        rw [if_neg (show ¬ j / 4 < n by omega), if_neg (show ¬ j / 4 < n + 1 by omega)]

/-- The clamped store of the default alpha 255 is the byte 255. -/
lemma clampByte_255 : clampByte 255 = 255 := by
  have h := clampByte_natCast 255 le_rfl
  norm_num at h
  exact h

/-- C8 (amended): toGrayscale writes the rounded luminance into the R, G
and B bytes of every pixel, but the alpha byte of every output pixel is
255, the setPixel default, regardless of the source alpha. -/
theorem toGrayscale_amended (img : dipImage) (x y c : ℕ)
    (hx : x < img.width) (hy : y < img.height) (hc : c < 3) :
    img.toGrayscale.data.getD ((y * img.width + x) * 4 + c) 0
        = clampByte ((img.grayValueAt x y : ℚ)) ∧
    img.toGrayscale.data.getD ((y * img.width + x) * 4 + 3) 0 = 255 := by
  obtain ⟨-, -, -, hbytes⟩ := toGrayscale_fold img (img.width * img.height) le_rfl
  rw [dipImage.toGrayscale]
  have hpix : y * img.width + x < img.width * img.height := pixel_index_lt hx hy
  constructor
  · rw [hbytes _ (by omega)]
    have d : ((y * img.width + x) * 4 + c) / 4 = y * img.width + x := by omega
    have m : ((y * img.width + x) * 4 + c) % 4 = c := by omega
    rw [d, m, if_pos hpix, if_neg (by omega),
      (pixel_coords _ x y hx).1, (pixel_coords _ x y hx).2]
  · rw [hbytes _ (by omega)]
    have d : ((y * img.width + x) * 4 + 3) / 4 = y * img.width + x := by omega
    have m : ((y * img.width + x) * 4 + 3) % 4 = 3 := by omega
    rw [d, m, if_pos hpix, if_pos rfl, clampByte_255]

set_option maxHeartbeats 1000000 in
/-- C8 (counterexample): a 1x1 image with channels (50, 100, 150) and alpha
7 maps to the single gray pixel (91, 91, 91, 255): the luminance rounds to
91 in R, G and B, and the alpha byte is 255, not the source alpha 7. -/
theorem toGrayscale_alpha_cex :
    (dipImage.toGrayscale ⟨1, 1, [50, 100, 150, 7]⟩).data = [91, 91, 91, 255] ∧
    (dipImage.toGrayscale ⟨1, 1, [50, 100, 150, 7]⟩).data.getD 3 0 ≠ 7 := by
  have h : (dipImage.toGrayscale ⟨1, 1, [50, 100, 150, 7]⟩).data = [91, 91, 91, 255] := by
    simp [dipImage.toGrayscale, dipImage.grayscaleStep, dipImage.mkImage,
      dipImage.setPixel, dipImage.grayValueAt, dipImage.getPixel, clampByte,
      roundHalfEven, jsRoundQ, List.range_succ]
    norm_num [min_def, max_def, Int.fract, round_eq, Int.floor_eq_iff]
    omega
  exact ⟨h, by rw [h]; decide⟩

/-- C8 (witness): the amended statement applied to the 1x1 image whose
source alpha is 7: the output alpha byte is 255 and the red byte carries
the clamped rounded luminance. -/
theorem toGrayscale_amended_witness :
    (dipImage.toGrayscale ⟨1, 1, [50, 100, 150, 7]⟩).data.getD 3 0 = 255 ∧
    (dipImage.toGrayscale ⟨1, 1, [50, 100, 150, 7]⟩).data.getD 0 0
      = clampByte ((dipImage.grayValueAt ⟨1, 1, [50, 100, 150, 7]⟩ 0 0 : ℚ)) := by
  have h := toGrayscale_amended ⟨1, 1, [50, 100, 150, 7]⟩ 0 0 0
    (by decide) (by decide) (by decide)
  exact ⟨by simpa using h.2, by simpa using h.1⟩
